import Mathlib

/-!
Shallow embedding of the dynamodb-migration-monitor core
(`internal/stream_style_verification.go` and `internal/stream_subscriber_v2.go`).

Counters are modelled as `Nat`: in the Go source they are `int` values that
only ever increase by 1 per observed event, so 64-bit overflow is unreachable
in any run the claims talk about. Wall-clock times (`StartTime`, tickers,
`time.Sleep`) are not part of the counter state; sleeps that the claims
mention appear as explicit entries in worker action traces.
-/

namespace DMM

/-- Event names of a stream record (`stypes.OperationType`): only the three
values the code matches on. -/
inductive OperationType
  | insert
  | modify
  | remove
deriving DecidableEq, Repr

/-- DynamoDB attribute values as the code handles them: only the `S` (string)
member is ever read (`*streamtypes.AttributeValueMemberS` type assertions);
every other member collapses to `other`. -/
inductive AttrVal
  | S (v : String)
  | other
deriving DecidableEq, Repr

/-- Go map read `v, ok := m[k]`, on an association-list model of the map. -/
def mapGet (m : List (String × AttrVal)) (k : String) : Option AttrVal :=
  (m.find? (fun p => p.1 == k)).map (fun p => p.2)

/-- Go map write `m[k] = v`: overwrite the entry if the key is present,
append it otherwise. -/
def mapPut (m : List (String × AttrVal)) (k : String) (v : AttrVal) :
    List (String × AttrVal) :=
  if (m.find? (fun p => p.1 == k)).isSome then
    m.map (fun p => if p.1 == k then (k, v) else p)
  else
    m ++ [(k, v)]

/-- A stream record as consumed by the verification loop: `EventID`,
`EventName`, and `rec.Dynamodb.Keys`. `keys = none` models a record whose
`Dynamodb` or `Keys` pointer is nil. -/
structure StreamRecord where
  eventID : String
  eventName : OperationType
  keys : Option (List (String × AttrVal))
deriving DecidableEq, Repr

/-- `ValidationRecord` from `stream_style_verification.go`. -/
structure ValidationRecord where
  partitionKeyValue : String
  sortKeyValue : String
deriving DecidableEq, Repr

/-- `Stats` from `stream_style_verification.go` (minus `StartTime`, which is
wall-clock only). `eventIDs` keeps set semantics of the Go
`map[string]struct\x7b\x7d` via insert-if-absent. -/
structure Stats where
  insertCount : Nat
  modifyCount : Nat
  totalCount : Nat
  eventIDs : List String
  validationCount : Nat
  validationSuccess : Nat
  validationFailed : Nat
deriving DecidableEq, Repr

/-- The all-zero `Stats` value the run starts from. -/
def Stats.init : Stats :=
  { insertCount := 0, modifyCount := 0, totalCount := 0, eventIDs := []
    validationCount := 0, validationSuccess := 0, validationFailed := 0 }

/-- The configuration fields of `StreamVerificationConfig` that the counting
and validation logic reads (clients, table names, iterator type and verbosity
only select I/O endpoints and log volume). -/
structure VerifCfg where
  sampleRate : Nat
  partitionKey : String
  sortKey : String
deriving DecidableEq, Repr

/-- Sample-rate normalisation at the top of `RunStreamStyleVerification`:
`if cfg.SampleRate <= 0 \x7b cfg.SampleRate = 100 \x7d`. -/
def normSampleRate (n : Nat) : Nat :=
  if n ≤ 0 then 100 else n

/-- Set-insert on the `eventIDs` list, modelling
`stats.EventIDs[eventID] = struct\x7b\x7d\x7b\x7d`. -/
def setInsert (l : List String) (x : String) : List String :=
  if x ∈ l then l else l ++ [x]

/-- Key extraction from a received record (the inline block of the consumer
loop): the partition value is taken when the entry exists and is an `S`
attribute, else empty; the sort value likewise but only when a sort key name
is configured. A nil `Dynamodb`/`Keys` yields two empty strings. -/
def extractKeys (partitionKey sortKey : String)
    (keys : Option (List (String × AttrVal))) : String × String :=
  match keys with
  | none => ("", "")
  | some m =>
    let pv : String :=
      match mapGet m partitionKey with
      | some (AttrVal.S v) => v
      | _ => ""
    let sv : String :=
      if sortKey ≠ "" then
        match mapGet m sortKey with
        | some (AttrVal.S v) => v
        | _ => ""
      else ""
    (pv, sv)

/-- The consumer-side state touched by the `case rec := <-recCh` branch:
the shared `stats` plus the `validationBuffer` slice. -/
structure ConsumerState where
  stats : Stats
  validationBuffer : List ValidationRecord
deriving DecidableEq, Repr

/-- One pass of the `case rec := <-recCh` branch of the consumer loop:
Remove events are skipped wholesale (`continue`); otherwise `TotalCount` is
incremented, the per-type counter is incremented, the event id is added to
the dedup set, keys are extracted, and the record is sampled into the
validation buffer when the post-increment total is divisible by the sample
rate and the partition value is non-empty. -/
def processRecord (cfg : VerifCfg) (st : ConsumerState) (rec : StreamRecord) :
    ConsumerState :=
  if rec.eventName = OperationType.remove then st
  else
    let total := st.stats.totalCount + 1
    let ic := if rec.eventName = OperationType.insert then
        st.stats.insertCount + 1 else st.stats.insertCount
    let mc := if rec.eventName = OperationType.modify then
        st.stats.modifyCount + 1 else st.stats.modifyCount
    let ids := setInsert st.stats.eventIDs rec.eventID
    let kv := extractKeys cfg.partitionKey cfg.sortKey rec.keys
    let buf :=
      if total % cfg.sampleRate = 0 ∧ kv.1 ≠ "" then
        st.validationBuffer ++
          [{ partitionKeyValue := kv.1, sortKeyValue := kv.2 }]
      else st.validationBuffer
    { stats :=
        { st.stats with
          totalCount := total, insertCount := ic, modifyCount := mc
          eventIDs := ids }
      validationBuffer := buf }

/-- Feeding a list of records through the consumer branch in order. -/
def runConsumer (cfg : VerifCfg) (st : ConsumerState)
    (recs : List StreamRecord) : ConsumerState :=
  recs.foldl (processRecord cfg) st

/-- The consumer state at startup: zero stats, empty buffer. -/
def ConsumerState.init : ConsumerState :=
  { stats := Stats.init, validationBuffer := [] }

/-! ### Validation worker (`verifyInTable` / `processValidationBatch`) -/

/-- Outcome of one `GetItem` call as the validation side sees it: a provider
error, an item present (`len(result.Item) > 0`), or no item. -/
inductive LookupOutcome
  | err
  | found
  | notFound
deriving DecidableEq, Repr

/-- The boolean `verifyInTable` derives from one `GetItem` outcome: a
provider error is logged and yields `false` (it is not sent to the error
channel); otherwise the result is item existence. -/
def verifyInTable : LookupOutcome → Bool
  | LookupOutcome.err => false
  | LookupOutcome.found => true
  | LookupOutcome.notFound => false

/-- Key composition inside `verifyInTable`: the Go map literal
`\x7bcfg.PartitionKey: S(partitionKeyValue)\x7d`, then
`keys[cfg.SortKey] = S(sortKeyValue)` when a sort key is configured and the
extracted sort value is non-empty. -/
def composeKey (partitionKey sortKey pv sv : String) :
    List (String × AttrVal) :=
  let keys := [(partitionKey, AttrVal.S pv)]
  if sortKey ≠ "" ∧ sv ≠ "" then mapPut keys sortKey (AttrVal.S sv) else keys

/-- Observable actions of a validation worker: a `GetItem` call with its
composed key, or a `time.Sleep` of the given number of seconds. -/
inductive WAction
  | getItem (key : List (String × AttrVal))
  | sleepSec (n : Nat)
deriving DecidableEq, Repr

/-- The lookup oracle: the outcome the provider returns for the k-th
`GetItem` call the worker issues (counted across the run). Quantifying over
all oracles covers every provider behaviour. -/
def LookupOracle : Type := Nat → LookupOutcome

/-- The per-record body of `processValidationBatch`: first attempt; if it
fails, sleep 2 s and retry exactly once; the verdict is the last attempt's
result. Returns the verdict, the next lookup index and the action trace. -/
def validateOne (cfg : VerifCfg) (o : LookupOracle) (r : ValidationRecord)
    (k : Nat) : Bool × Nat × List WAction :=
  let key := composeKey cfg.partitionKey cfg.sortKey
      r.partitionKeyValue r.sortKeyValue
  let e1 := verifyInTable (o k)
  if e1 then (true, k + 1, [WAction.getItem key])
  else
    let e2 := verifyInTable (o (k + 1))
    (e2, k + 2,
      [WAction.getItem key, WAction.sleepSec 2, WAction.getItem key])

/-- The record loop of `processValidationBatch`: for each record increment
`ValidationCount`, run the lookup-with-retry, and increment
`ValidationSuccess` or `ValidationFailed` from the verdict. -/
def processBatchGo (cfg : VerifCfg) (o : LookupOracle) :
    List ValidationRecord → Stats → Nat → Stats × Nat × List WAction
  | [], s, k => (s, k, [])
  | r :: rs, s, k =>
    let s1 := { s with validationCount := s.validationCount + 1 }
    let vkt := validateOne cfg o r k
    let s2 :=
      if vkt.1 then { s1 with validationSuccess := s1.validationSuccess + 1 }
      else { s1 with validationFailed := s1.validationFailed + 1 }
    let rec_rest := processBatchGo cfg o rs s2 vkt.2.1
    (rec_rest.1, rec_rest.2.1, vkt.2.2 ++ rec_rest.2.2)

/-- `processValidationBatch`: sleep `REPLICATION_WAIT = 5 s`, then run the
record loop. This function executes on a validation worker goroutine (the
`validationCh` drainer, or a one-shot goroutine spawned on overflow), and it
mutates the shared `stats` directly. -/
def processValidationBatch (cfg : VerifCfg) (o : LookupOracle) (s : Stats)
    (batch : List ValidationRecord) (k : Nat) : Stats × Nat × List WAction :=
  let r := processBatchGo cfg o batch s k
  (r.1, r.2.1, WAction.sleepSec 5 :: r.2.2)

/-! ### Whole-pipeline state machine

The pipeline shares one `Stats` value between the consumer loop and the
validation workers. The system state below is that shared state plus the
consumer's `validationBuffer` and the multiset of flushed batches not yet
processed (`validationCh` contents together with any overflow goroutine's
batch). Steps are the atomic state updates of the Go code: receiving one
record, `processValidationBuffer`, and a worker completing one batch. States
between steps are exactly the quiescent points (no batch mid-processing). -/

structure SysState where
  stats : Stats
  validationBuffer : List ValidationRecord
  pending : List (List ValidationRecord)
  lookups : Nat
deriving DecidableEq, Repr

/-- The system state at startup. -/
def SysState.init : SysState :=
  { stats := Stats.init, validationBuffer := [], pending := [], lookups := 0 }

/-- The record branch of the consumer loop, on the system state. -/
def sysRecv (cfg : VerifCfg) (st : SysState) (rec : StreamRecord) : SysState :=
  let c := processRecord cfg
      { stats := st.stats, validationBuffer := st.validationBuffer } rec
  { st with stats := c.stats, validationBuffer := c.validationBuffer }

/-- `processValidationBuffer`: a no-op on an empty buffer; otherwise the
buffer is copied into a batch, the buffer is cleared, and the batch is handed
to a worker (via `validationCh`, or a one-shot goroutine when the channel is
full — either way one pending batch). -/
def processValidationBuffer (st : SysState) : SysState :=
  if st.validationBuffer = [] then st
  else
    { st with
      validationBuffer := []
      pending := st.pending ++ [st.validationBuffer] }

/-- A worker finishing pending batch number `i` (batches may complete in any
order because overflow goroutines run beside the channel drainer). -/
def sysWork (cfg : VerifCfg) (o : LookupOracle) (st : SysState) (i : Nat) :
    SysState :=
  let batch := st.pending.getD i []
  let r := processValidationBatch cfg o st.stats batch st.lookups
  { st with stats := r.1, pending := st.pending.eraseIdx i, lookups := r.2.1 }

/-- One atomic step of the pipeline. -/
inductive SysStep (cfg : VerifCfg) (o : LookupOracle) : SysState → SysState → Prop
  | recv (st : SysState) (rec : StreamRecord) :
      SysStep cfg o st (sysRecv cfg st rec)
  | flush (st : SysState) :
      SysStep cfg o st (processValidationBuffer st)
  | work (st : SysState) (i : Nat) (h : i < st.pending.length) :
      SysStep cfg o st (sysWork cfg o st i)

/-- Reachability of a pipeline state from startup. -/
def SysReachable (cfg : VerifCfg) (o : LookupOracle) (st : SysState) : Prop :=
  Relation.ReflTransGen (SysStep cfg o) SysState.init st

/-! ### Shard discovery (`GetStreamDataAsync` in `stream_subscriber_v2.go`) -/

/-- A shard as `DescribeStream` reports it: id and optional parent id. -/
structure Shard where
  shardId : String
  parentShardId : Option String
deriving DecidableEq, Repr

/-- `GetShardIteratorInput` as the discovery loop builds it (the iterator
type is the run-wide `s.ShardIteratorType`, kept abstract as a string). -/
structure GetIteratorRequest where
  streamArn : String
  shardId : String
  shardIteratorType : String
deriving DecidableEq, Repr

/-- The `for _, shard := range ids` body of the discovery goroutine: ids not
yet in `allShards` are inserted (under the lock) and a reader request is sent
to `shardsCh`; known ids are skipped. Returns the grown set and the newly
enqueued requests in order. -/
def discoverOnce (arn itType : String) (known : List String) :
    List Shard → List String × List GetIteratorRequest
  | [] => (known, [])
  | sh :: rest =>
    if sh.shardId ∈ known then discoverOnce arn itType known rest
    else
      let r := discoverOnce arn itType (known ++ [sh.shardId]) rest
      (r.1,
        { streamArn := arn, shardId := sh.shardId
          shardIteratorType := itType } :: r.2)

/-- State of the discovery goroutine: the `allShards` set, everything ever
sent to `shardsCh`, everything sent to `errCh`, and whether the goroutine has
executed its `return`. -/
structure DiscoveryState where
  known : List String
  queued : List GetIteratorRequest
  errors : List String
  returned : Bool
deriving DecidableEq, Repr

/-- The discovery goroutine's state at startup. -/
def DiscoveryState.init : DiscoveryState :=
  { known := [], queued := [], errors := [], returned := false }

/-- What one refresh signal finds: `getLatestStreamArn` fails, or
`getShardIDs` fails, or both succeed with an arn and a shard listing. -/
inductive DiscoverInput
  | resolveErr (msg : String)
  | listErr (msg : String)
  | ok (arn : String) (shards : List Shard)
deriving DecidableEq, Repr

/-- One iteration of `for range needUpdate`: on an error from
`getLatestStreamArn` or `getShardIDs` the goroutine does
`errCh <- err; return` — the error is published and the loop exits, so once
`returned` is set no later signal changes anything. On success the listing
is folded through `discoverOnce`. -/
def discoveryStep (itType : String) (st : DiscoveryState)
    (inp : DiscoverInput) : DiscoveryState :=
  if st.returned then st
  else
    match inp with
    | DiscoverInput.resolveErr m =>
      { st with errors := st.errors ++ [m], returned := true }
    | DiscoverInput.listErr m =>
      { st with errors := st.errors ++ [m], returned := true }
    | DiscoverInput.ok arn shards =>
      let r := discoverOnce arn itType st.known shards
      { st with known := r.1, queued := st.queued ++ r.2 }

/-- The discovery goroutine fed a sequence of refresh-signal results. -/
def discoveryRun (itType : String) (st : DiscoveryState)
    (inps : List DiscoverInput) : DiscoveryState :=
  inps.foldl (discoveryStep itType) st

/-! ### Shard reader (`processShard` in `stream_subscriber_v2.go`)

`processShard` is driven by the provider: each loop iteration issues one
`GetRecords` call. We model the provider by the sequence of responses it
would give to the successive `GetRecords` calls of this reader; the iterator
tokens themselves only matter through being nil or not, so a response
carries `next : Bool` (`true` = a non-nil `NextShardIterator`). -/

/-- Failure modes of a `GetRecords` call: `TrimmedDataAccessException`, or
any other error (carried as a message). -/
inductive ShardErr
  | trimmed
  | other (msg : String)
deriving DecidableEq, Repr

/-- One `GetRecords` response: a failure, or a page of records together with
whether `NextShardIterator` is non-nil. -/
inductive RecordsResp
  | failure (e : ShardErr)
  | page (records : List StreamRecord) (next : Bool)
deriving DecidableEq, Repr

/-- How a reader run ended: `clean` (`processShard` returned nil — nothing is
sent to `errCh` and the goroutine just releases its semaphore slot), `failed`
(`processShard` returned an error, which `GetStreamDataAsync` publishes to
`errCh`), or `needsMore` (the response script ran out while the reader still
held a non-nil iterator, i.e. the run is not finished within the script). -/
inductive ReaderOutcome
  | clean
  | failed (msg : String)
  | needsMore
deriving DecidableEq, Repr

/-- Result of running a reader: outcome, records published to `recCh` in
order, and the number of `GetRecords` calls issued. -/
structure ReaderRun where
  outcome : ReaderOutcome
  published : List StreamRecord
  calls : Nat
deriving DecidableEq, Repr

/-- The `for next != nil` loop of `processShard`: each iteration consumes the
next scripted response. `TrimmedDataAccessException` returns nil (clean);
other errors are returned; a page's records are all sent to `recCh` before
the nil-ness of `NextShardIterator` is examined; a nil next iterator leaves
the loop and returns nil. The sleeps (10 ms / 1 s / 10 s) between iterations
do not touch the state and are omitted. -/
def readLoop : List RecordsResp → ReaderRun
  | [] => { outcome := ReaderOutcome.needsMore, published := [], calls := 0 }
  | RecordsResp.failure ShardErr.trimmed :: _ =>
    { outcome := ReaderOutcome.clean, published := [], calls := 1 }
  | RecordsResp.failure (ShardErr.other m) :: _ =>
    { outcome := ReaderOutcome.failed m, published := [], calls := 1 }
  | RecordsResp.page recs false :: _ =>
    { outcome := ReaderOutcome.clean, published := recs, calls := 1 }
  | RecordsResp.page recs true :: rest =>
    let r := readLoop rest
    { outcome := r.outcome, published := recs ++ r.published
      calls := r.calls + 1 }

/-- `processShard` head: `GetShardIterator` may fail (error returned, hence
published), may return a nil iterator (immediate clean return, zero
`GetRecords` calls), or yields an iterator and the loop runs. -/
def processShard (initIter : Except String Bool)
    (script : List RecordsResp) : ReaderRun :=
  match initIter with
  | Except.error m =>
    { outcome := ReaderOutcome.failed m, published := [], calls := 0 }
  | Except.ok false =>
    { outcome := ReaderOutcome.clean, published := [], calls := 0 }
  | Except.ok true => readLoop script

/-- The terminating-cleanly condition on a response script, written from the
claim's wording: the first terminating response is a `TrimmedDataAccess`
failure or a page with a nil next iterator (pages with a non-nil next
iterator continue the loop). -/
def cleanScript : List RecordsResp → Bool
  | [] => false
  | RecordsResp.failure ShardErr.trimmed :: _ => true
  | RecordsResp.failure (ShardErr.other _) :: _ => false
  | RecordsResp.page _ false :: _ => true
  | RecordsResp.page _ true :: rest => cleanScript rest

/-! ### Concrete scenario inputs -/

/-- Sample-rate-1 configuration used by scenario S3. -/
def s3Cfg : VerifCfg := { sampleRate := 1, partitionKey := "pk", sortKey := "" }

/-- Scenario S3, first record: `Insert\x7bp=a\x7d`. -/
def s3Insert : StreamRecord :=
  { eventID := "e1", eventName := OperationType.insert
    keys := some [("pk", AttrVal.S "a")] }

/-- Scenario S3, second record: `Remove\x7bp=b\x7d`. -/
def s3Remove : StreamRecord :=
  { eventID := "e2", eventName := OperationType.remove
    keys := some [("pk", AttrVal.S "b")] }

/-- Scenario S3, third record: `Modify\x7bp=c\x7d`. -/
def s3Modify : StreamRecord :=
  { eventID := "e3", eventName := OperationType.modify
    keys := some [("pk", AttrVal.S "c")] }

/-- Sample-rate-3 configuration used by scenario S1. -/
def s1Cfg : VerifCfg := { sampleRate := 3, partitionKey := "pk", sortKey := "" }

/-- Scenario S1 record builder: a synthetic `Insert` with partition value
`p<i>`. -/
def synthInsert (i : Nat) : StreamRecord :=
  { eventID := "e" ++ toString i, eventName := OperationType.insert
    keys := some [("pk", AttrVal.S ("p" ++ toString i))] }

/-- Scenario S1 input: ten synthetic inserts `p1 .. p10`. -/
def s1Records : List StreamRecord := (List.range 10).map (fun i => synthInsert (i + 1))

/-! ## Claims -/

/-- C4: for every received record with `event_name = Remove`, the consumer
leaves `total`, `insert`, `modify`, `unique_ids` and the validation buffer
all unchanged (the branch does `continue` before touching any state), and
feeding `[Insert\x7bp=a\x7d, Remove\x7bp=b\x7d, Modify\x7bp=c\x7d]` with
`sample_rate = 1` yields `total = 2`, `insert = 1`, `modify = 1` and the two
sampled validation records for `a` and `c`. -/
theorem remove_events_change_nothing :
    (∀ (cfg : VerifCfg) (st : ConsumerState) (rec : StreamRecord),
      rec.eventName = OperationType.remove → processRecord cfg st rec = st) ∧
    runConsumer s3Cfg ConsumerState.init [s3Insert, s3Remove, s3Modify] =
      { stats :=
          { insertCount := 1, modifyCount := 1, totalCount := 2
            eventIDs := ["e1", "e3"], validationCount := 0
            validationSuccess := 0, validationFailed := 0 }
        validationBuffer :=
          [{ partitionKeyValue := "a", sortKeyValue := "" },
           { partitionKeyValue := "c", sortKeyValue := "" }] } := by
  constructor
  · intro cfg st rec h
    simp [processRecord, h]
  · decide

/-- Witness for C4: the concrete `Remove` record of scenario S3 leaves the
initial consumer state unchanged. -/
theorem remove_events_change_nothing_witness :
    processRecord s3Cfg ConsumerState.init s3Remove = ConsumerState.init :=
  remove_events_change_nothing.1 s3Cfg ConsumerState.init s3Remove (by decide)

/-- C5: a non-`Remove` record is sampled into the validation buffer exactly
when the post-increment total is divisible by the sample rate and the
extracted partition value is non-empty; with `sample_rate = 1` every
non-`Remove` record with a non-empty partition value is sampled; and ten
synthetic inserts at `sample_rate = 3` yield `total = 10`, `insert = 10` and
exactly the samples of records 3, 6 and 9. -/
theorem sampling_cadence :
    (∀ (cfg : VerifCfg) (st : ConsumerState) (rec : StreamRecord),
      rec.eventName ≠ OperationType.remove →
      (processRecord cfg st rec).validationBuffer =
        (if (st.stats.totalCount + 1) % cfg.sampleRate = 0 ∧
            (extractKeys cfg.partitionKey cfg.sortKey rec.keys).1 ≠ "" then
          st.validationBuffer ++
            [{ partitionKeyValue :=
                 (extractKeys cfg.partitionKey cfg.sortKey rec.keys).1
               sortKeyValue :=
                 (extractKeys cfg.partitionKey cfg.sortKey rec.keys).2 }]
        else st.validationBuffer)) ∧
    (∀ (cfg : VerifCfg) (st : ConsumerState) (rec : StreamRecord),
      cfg.sampleRate = 1 → rec.eventName ≠ OperationType.remove →
      (extractKeys cfg.partitionKey cfg.sortKey rec.keys).1 ≠ "" →
      (processRecord cfg st rec).validationBuffer =
        st.validationBuffer ++
          [{ partitionKeyValue :=
               (extractKeys cfg.partitionKey cfg.sortKey rec.keys).1
             sortKeyValue :=
               (extractKeys cfg.partitionKey cfg.sortKey rec.keys).2 }]) ∧
    (runConsumer s1Cfg ConsumerState.init s1Records).stats.totalCount = 10 ∧
    (runConsumer s1Cfg ConsumerState.init s1Records).stats.insertCount = 10 ∧
    (runConsumer s1Cfg ConsumerState.init s1Records).validationBuffer =
      [{ partitionKeyValue := "p3", sortKeyValue := "" },
       { partitionKeyValue := "p6", sortKeyValue := "" },
       { partitionKeyValue := "p9", sortKeyValue := "" }] := by
  refine ⟨?_, ?_, by decide, by decide, by decide⟩
  · intro cfg st rec h
    simp [processRecord, h]
  · intro cfg st rec h1 h2 h3
    simp [processRecord, h1, h2, h3, Nat.mod_one]

/-- Witness for C5: the first record of scenario S1, fed at
`sample_rate = 1`, is sampled. -/
theorem sampling_cadence_witness :
    (processRecord s3Cfg ConsumerState.init (synthInsert 1)).validationBuffer =
      [{ partitionKeyValue := "p1", sortKeyValue := "" }] :=
  sampling_cadence.2.1 s3Cfg ConsumerState.init (synthInsert 1)
    (by decide) (by decide) (by decide)

/-- Helper for C7: entries of the composed key when the configured names
differ: the Go map write appends, so the key holds exactly the partition
entry plus the conditional sort entry. -/
theorem composeKey_mem_of_ne (pk sk pv sv : String) (hne : sk ≠ pk) :
    ∀ k v, ((k, v) ∈ composeKey pk sk pv sv ↔
      ((k = pk ∧ v = AttrVal.S pv) ∨
       (k = sk ∧ v = AttrVal.S sv ∧ sk ≠ "" ∧ sv ≠ ""))) := by
  intro k v
  have hbeq : (pk == sk) = false := by
    rw [beq_eq_false_iff_ne]
    exact fun e => hne e.symm
  by_cases h : sk ≠ "" ∧ sv ≠ ""
  · simp only [composeKey, if_pos h, mapPut, List.find?, hbeq, Option.isSome_none,
      cond_false, if_neg, Bool.false_eq_true]
    simp [Prod.ext_iff, h.1, h.2]
  · simp only [composeKey, if_neg h]
    simp [Prod.ext_iff]
    tauto

/-- Helper for C7: when the configured sort key name coincides with the
partition key name, key extraction reads both values from the same `Keys`
entry, so the extracted sort value equals the extracted partition value. -/
theorem extractKeys_same_name (pk : String) (hpk : pk ≠ "")
    (keys : Option (List (String × AttrVal))) :
    (extractKeys pk pk keys).2 = (extractKeys pk pk keys).1 := by
  cases keys with
  | none => rfl
  | some m => simp [extractKeys, hpk]

/-- Helper for C7: composing a key with coinciding names and coinciding
values yields the single partition entry, whether or not the Go map
overwrite fires. -/
theorem composeKey_same (pk pv : String) :
    composeKey pk pk pv pv = [(pk, AttrVal.S pv)] := by
  by_cases h : pk ≠ "" ∧ pv ≠ ""
  · simp [composeKey, h, mapPut, List.find?]
  · simp [composeKey, h]

/-- C7: for every validation lookup the composed `GetItem` key contains the
entry partition_key_name → S(partition_value); it contains
sort_key_name → S(sort_value) exactly when a sort key is configured and the
extracted sort value is non-empty; and no other entries appear. The key
pair of a lookup is the one the consumer extracted from the record, so the
first conjunct quantifies over `extractKeys` outputs: when the configured
names coincide, both values come from the same `Keys` entry and are equal,
so the map overwrite rewrites the partition entry with the same value. The
second conjunct ties lookups to the consumer: every record the consumer
adds to the validation buffer carries exactly the extracted key pair. -/
theorem composedKey_lookup_entries :
    (∀ (cfg : VerifCfg) (keys : Option (List (String × AttrVal)))
        (k : String) (v : AttrVal),
      ((k, v) ∈ composeKey cfg.partitionKey cfg.sortKey
          (extractKeys cfg.partitionKey cfg.sortKey keys).1
          (extractKeys cfg.partitionKey cfg.sortKey keys).2 ↔
        ((k = cfg.partitionKey ∧
            v = AttrVal.S (extractKeys cfg.partitionKey cfg.sortKey keys).1) ∨
         (k = cfg.sortKey ∧
            v = AttrVal.S (extractKeys cfg.partitionKey cfg.sortKey keys).2 ∧
            cfg.sortKey ≠ "" ∧
            (extractKeys cfg.partitionKey cfg.sortKey keys).2 ≠ "")))) ∧
    (∀ (cfg : VerifCfg) (st : ConsumerState) (rec : StreamRecord)
        (r : ValidationRecord),
      r ∈ (processRecord cfg st rec).validationBuffer →
      r ∈ st.validationBuffer ∨
      (r.partitionKeyValue =
          (extractKeys cfg.partitionKey cfg.sortKey rec.keys).1 ∧
       r.sortKeyValue =
          (extractKeys cfg.partitionKey cfg.sortKey rec.keys).2)) := by
  constructor
  · intro cfg keys k v
    by_cases hne : cfg.sortKey = cfg.partitionKey
    · rw [hne]
      by_cases hpk : cfg.partitionKey = ""
      · have hcond : ¬(cfg.partitionKey ≠ "" ∧
            (extractKeys cfg.partitionKey cfg.partitionKey keys).2 ≠ "") := by
          intro hc
          exact hc.1 hpk
        simp only [composeKey, if_neg hcond]
        simp [Prod.ext_iff]
        tauto
      · have hv := extractKeys_same_name cfg.partitionKey hpk keys
        rw [hv, composeKey_same]
        simp [Prod.ext_iff]
        tauto
    · exact composeKey_mem_of_ne cfg.partitionKey cfg.sortKey
        (extractKeys cfg.partitionKey cfg.sortKey keys).1
        (extractKeys cfg.partitionKey cfg.sortKey keys).2 hne k v
  · intro cfg st rec r h
    by_cases hrem : rec.eventName = OperationType.remove
    · left
      simpa [processRecord, hrem] using h
    · by_cases hs : (st.stats.totalCount + 1) % cfg.sampleRate = 0 ∧
        (extractKeys cfg.partitionKey cfg.sortKey rec.keys).1 ≠ ""
      · simp [processRecord, hrem, hs] at h
        rcases h with h1 | h2
        · exact Or.inl h1
        · right
          rw [h2]
          exact ⟨rfl, rfl⟩
      · left
        simpa [processRecord, hrem, hs] using h

/-- Witness for C7: the record the consumer buffers for the concrete insert
of scenario S3 carries exactly the extracted key pair. -/
theorem composedKey_lookup_entries_witness :
    ({ partitionKeyValue := "a", sortKeyValue := "" } : ValidationRecord) ∈
        ConsumerState.init.validationBuffer ∨
      (({ partitionKeyValue := "a", sortKeyValue := "" } :
            ValidationRecord).partitionKeyValue =
          (extractKeys s3Cfg.partitionKey s3Cfg.sortKey s3Insert.keys).1 ∧
       ({ partitionKeyValue := "a", sortKeyValue := "" } :
            ValidationRecord).sortKeyValue =
          (extractKeys s3Cfg.partitionKey s3Cfg.sortKey s3Insert.keys).2) :=
  composedKey_lookup_entries.2 s3Cfg ConsumerState.init s3Insert
    { partitionKeyValue := "a", sortKeyValue := "" } (by decide)

/-- Helper for C9: the record loop terminates cleanly exactly when the
response script's first terminating response is a trimmed-data failure or a
page with a nil next iterator. -/
theorem readLoop_clean_iff (s : List RecordsResp) :
    (readLoop s).outcome = ReaderOutcome.clean ↔ cleanScript s = true := by
  induction s with
  | nil => simp [readLoop, cleanScript]
  | cons hd tl ih =>
    cases hd with
    | failure e =>
      cases e with
      | trimmed => simp [readLoop, cleanScript]
      | other m => simp [readLoop, cleanScript]
    | page recs nxt =>
      cases nxt with
      | false => simp [readLoop, cleanScript]
      | true => simpa [readLoop, cleanScript] using ih

/-- C9: the shard reader returns nil (nothing reaches the error channel) and
stops calling `GetRecords` exactly when the initial iterator is nil, or the
first terminating `GetRecords` response is a page with a nil next iterator
(whose records, possibly zero, are all published first, in order) or a
`TrimmedDataAccess` failure; in each terminating case no further
`GetRecords` call is issued (`calls` counts them), and a nil next iterator
with zero records terminates the reader immediately with nothing published. -/
theorem shard_reader_clean_termination :
    (∀ (initIter : Except String Bool) (script : List RecordsResp),
      ((processShard initIter script).outcome = ReaderOutcome.clean ↔
        (initIter = Except.ok false ∨
         (initIter = Except.ok true ∧ cleanScript script = true)))) ∧
    (∀ script, processShard (Except.ok false) script =
      { outcome := ReaderOutcome.clean, published := [], calls := 0 }) ∧
    (∀ rest, readLoop (RecordsResp.page [] false :: rest) =
      { outcome := ReaderOutcome.clean, published := [], calls := 1 }) ∧
    (∀ recs rest, readLoop (RecordsResp.page recs false :: rest) =
      { outcome := ReaderOutcome.clean, published := recs, calls := 1 }) ∧
    (∀ rest, readLoop (RecordsResp.failure ShardErr.trimmed :: rest) =
      { outcome := ReaderOutcome.clean, published := [], calls := 1 }) ∧
    (∀ m rest, readLoop (RecordsResp.failure (ShardErr.other m) :: rest) =
      { outcome := ReaderOutcome.failed m, published := [], calls := 1 }) ∧
    (∀ recs rest, readLoop (RecordsResp.page recs true :: rest) =
      { outcome := (readLoop rest).outcome
        published := recs ++ (readLoop rest).published
        calls := (readLoop rest).calls + 1 }) := by
  refine ⟨?_, ?_, ?_, ?_, ?_, ?_, ?_⟩
  · intro initIter script
    cases initIter with
    | error m => simp [processShard]
    | ok b =>
      cases b with
      | false => simp [processShard]
      | true => simpa [processShard] using readLoop_clean_iff script
  · intro script; rfl
  · intro rest; rfl
  · intro recs rest; rfl
  · intro rest; rfl
  · intro m rest; rfl
  · intro recs rest; rfl

/-- C10: a `GetItem` provider error is treated by `verifyInTable` as "item
not found" (it logs and returns `false`; nothing reaches the error channel,
which the Bool-only return type of the embedded function mirrors), so a
sampled record both of whose lookup attempts error is accounted exactly as a
record both of whose lookups genuinely miss: `validation_count` and
`validation_failed` each grow by one. -/
theorem getitem_error_counts_as_miss :
    verifyInTable LookupOutcome.err = false ∧
    (∀ (cfg : VerifCfg) (s : Stats) (k : Nat) (r : ValidationRecord),
      processBatchGo cfg (fun _ => LookupOutcome.err) [r] s k =
        processBatchGo cfg (fun _ => LookupOutcome.notFound) [r] s k ∧
      (processBatchGo cfg (fun _ => LookupOutcome.err) [r] s k).1 =
        { s with
          validationCount := s.validationCount + 1
          validationFailed := s.validationFailed + 1 }) := by
  refine ⟨rfl, ?_⟩
  intro cfg s k r
  constructor
  · rfl
  · rfl

/-- C6: for every record in a batch the worker does a first lookup; exactly
when it misses, one retry follows a 2 s sleep (the action trace and the next
lookup index show the exact calls made); the verdict equals
`exists₁ ∨ exists₂`; and a record whose first lookup misses while the retry
hits is accounted as one success and zero failures. -/
theorem retry_once_on_miss :
    (∀ (cfg : VerifCfg) (o : LookupOracle) (r : ValidationRecord) (k : Nat),
      (validateOne cfg o r k).1 =
        (verifyInTable (o k) || verifyInTable (o (k + 1))) ∧
      (validateOne cfg o r k).2 =
        (if verifyInTable (o k) then
          (k + 1,
            [WAction.getItem (composeKey cfg.partitionKey cfg.sortKey
              r.partitionKeyValue r.sortKeyValue)])
        else
          (k + 2,
            [WAction.getItem (composeKey cfg.partitionKey cfg.sortKey
                r.partitionKeyValue r.sortKeyValue),
             WAction.sleepSec 2,
             WAction.getItem (composeKey cfg.partitionKey cfg.sortKey
                r.partitionKeyValue r.sortKeyValue)]))) ∧
    (∀ (cfg : VerifCfg) (o : LookupOracle) (s : Stats) (k : Nat)
        (r : ValidationRecord),
      o k = LookupOutcome.notFound → o (k + 1) = LookupOutcome.found →
      (processBatchGo cfg o [r] s k).1 =
        { s with
          validationCount := s.validationCount + 1
          validationSuccess := s.validationSuccess + 1 }) := by
  constructor
  · intro cfg o r k
    by_cases h : verifyInTable (o k) = true
    · simp [validateOne, h]
    · simp only [Bool.not_eq_true] at h
      simp [validateOne, h]
  · intro cfg o s k r h1 h2
    simp [processBatchGo, validateOne, h1, h2, verifyInTable]

/-- Witness for C6: a concrete oracle that misses on the first call and hits
on the second, with one record, yields one success and zero failures. -/
theorem retry_once_on_miss_witness :
    (processBatchGo s3Cfg
        (fun n => if n = 0 then LookupOutcome.notFound else LookupOutcome.found)
        [{ partitionKeyValue := "K", sortKeyValue := "S" }] Stats.init 0).1 =
      { Stats.init with validationCount := 1, validationSuccess := 1 } :=
  retry_once_on_miss.2 s3Cfg
    (fun n => if n = 0 then LookupOutcome.notFound else LookupOutcome.found)
    Stats.init 0 { partitionKeyValue := "K", sortKeyValue := "S" }
    (by decide) (by decide)

/-- Helper for C8: the `allShards` set only grows across one discovery pass. -/
theorem discoverOnce_known_sub (arn t : String) :
    ∀ (ids : List Shard) (known : List String),
      known ⊆ (discoverOnce arn t known ids).1 := by
  intro ids
  induction ids with
  | nil => intro known; simp [discoverOnce]
  | cons sh rest ih =>
    intro known
    by_cases h : sh.shardId ∈ known
    · simpa [discoverOnce, h] using ih known
    · intro x hx
      have hx2 : x ∈ (discoverOnce arn t (known ++ [sh.shardId]) rest).1 :=
        ih (known ++ [sh.shardId]) (by simp [hx])
      simpa [discoverOnce, h] using hx2

/-- Helper for C8: after a pass, every listed shard id is in `allShards`. -/
theorem discoverOnce_mem (arn t : String) :
    ∀ (ids : List Shard) (known : List String) (sh : Shard), sh ∈ ids →
      sh.shardId ∈ (discoverOnce arn t known ids).1 := by
  intro ids
  induction ids with
  | nil => intro known sh h; cases h
  | cons a rest ih =>
    intro known sh h
    rcases List.mem_cons.mp h with rfl | hmem
    · by_cases hk : sh.shardId ∈ known
      · have := discoverOnce_known_sub arn t rest known hk
        simpa [discoverOnce, hk] using this
      · have : sh.shardId ∈ known ++ [sh.shardId] := by simp
        have := discoverOnce_known_sub arn t rest (known ++ [sh.shardId]) this
        simpa [discoverOnce, hk] using this
    · by_cases hk : a.shardId ∈ known
      · simpa [discoverOnce, hk] using ih known sh hmem
      · simpa [discoverOnce, hk] using ih (known ++ [a.shardId]) sh hmem

/-- Helper for C8: every request a pass enqueues names a shard id that was
not yet known when the pass started. -/
theorem discoverOnce_queued_new (arn t : String) :
    ∀ (ids : List Shard) (known : List String) (r : GetIteratorRequest),
      r ∈ (discoverOnce arn t known ids).2 → r.shardId ∉ known := by
  intro ids
  induction ids with
  | nil => intro known r h; simp [discoverOnce] at h
  | cons a rest ih =>
    intro known r h
    by_cases hk : a.shardId ∈ known
    · exact ih known r (by simpa [discoverOnce, hk] using h)
    · rw [show discoverOnce arn t known (a :: rest) =
          ((discoverOnce arn t (known ++ [a.shardId]) rest).1,
            { streamArn := arn, shardId := a.shardId, shardIteratorType := t } ::
              (discoverOnce arn t (known ++ [a.shardId]) rest).2) from by
            simp [discoverOnce, hk]] at h
      rcases List.mem_cons.mp h with rfl | hmem
      · exact hk
      · have := ih (known ++ [a.shardId]) r hmem
        intro hx
        exact this (by simp [hx])

/-- Helper for C8: every request a pass enqueues names a shard id that is in
`allShards` once the pass ends. -/
theorem discoverOnce_queued_sub (arn t : String) :
    ∀ (ids : List Shard) (known : List String) (r : GetIteratorRequest),
      r ∈ (discoverOnce arn t known ids).2 →
      r.shardId ∈ (discoverOnce arn t known ids).1 := by
  intro ids
  induction ids with
  | nil => intro known r h; simp [discoverOnce] at h
  | cons a rest ih =>
    intro known r h
    by_cases hk : a.shardId ∈ known
    · simpa [discoverOnce, hk] using
        ih known r (by simpa [discoverOnce, hk] using h)
    · rw [show discoverOnce arn t known (a :: rest) =
          ((discoverOnce arn t (known ++ [a.shardId]) rest).1,
            { streamArn := arn, shardId := a.shardId, shardIteratorType := t } ::
              (discoverOnce arn t (known ++ [a.shardId]) rest).2) from by
            simp [discoverOnce, hk]]
      rw [show discoverOnce arn t known (a :: rest) =
          ((discoverOnce arn t (known ++ [a.shardId]) rest).1,
            { streamArn := arn, shardId := a.shardId, shardIteratorType := t } ::
              (discoverOnce arn t (known ++ [a.shardId]) rest).2) from by
            simp [discoverOnce, hk]] at h
      rcases List.mem_cons.mp h with rfl | hmem
      · exact discoverOnce_known_sub arn t rest (known ++ [a.shardId])
          (by simp)
      · exact ih (known ++ [a.shardId]) r hmem

/-- Helper for C8: the requests of one pass carry pairwise distinct ids. -/
theorem discoverOnce_queued_nodup (arn t : String) :
    ∀ (ids : List Shard) (known : List String),
      ((discoverOnce arn t known ids).2.map (fun r => r.shardId)).Nodup := by
  intro ids
  induction ids with
  | nil => intro known; simp [discoverOnce]
  | cons a rest ih =>
    intro known
    by_cases hk : a.shardId ∈ known
    · simpa [discoverOnce, hk] using ih known
    · rw [show discoverOnce arn t known (a :: rest) =
          ((discoverOnce arn t (known ++ [a.shardId]) rest).1,
            { streamArn := arn, shardId := a.shardId, shardIteratorType := t } ::
              (discoverOnce arn t (known ++ [a.shardId]) rest).2) from by
            simp [discoverOnce, hk]]
      refine List.Nodup.cons ?_ (ih (known ++ [a.shardId]))
      intro hmem
      rcases List.mem_map.mp hmem with ⟨r, hr, hid⟩
      have := discoverOnce_queued_new arn t rest (known ++ [a.shardId]) r hr
      exact this (by simp [hid])

/-- Helper for C8: a pass over a listing whose every id is already known
changes nothing and enqueues nothing. -/
theorem discoverOnce_all_known (arn t : String) :
    ∀ (ids : List Shard) (known : List String),
      (∀ sh ∈ ids, sh.shardId ∈ known) →
      discoverOnce arn t known ids = (known, []) := by
  intro ids
  induction ids with
  | nil => intro known _; rfl
  | cons a rest ih =>
    intro known h
    have hk : a.shardId ∈ known := h a (by simp)
    have := ih known (fun sh hsh => h sh (by simp [hsh]))
    simpa [discoverOnce, hk] using this

/-- Helper for C8/C1: the per-run invariant of the discovery goroutine:
request ids ever sent to `shardsCh` are pairwise distinct and all recorded in
`allShards`. -/
def DiscInv (st : DiscoveryState) : Prop :=
  (st.queued.map (fun r => r.shardId)).Nodup ∧
  ∀ r ∈ st.queued, r.shardId ∈ st.known

/-- Helper for C8: one discovery-goroutine iteration preserves the run
invariant. -/
theorem discoveryStep_inv (t : String) (st : DiscoveryState)
    (inp : DiscoverInput) (h : DiscInv st) : DiscInv (discoveryStep t st inp) := by
  by_cases hr : st.returned
  · simpa [discoveryStep, hr] using h
  · cases inp with
    | resolveErr m => simpa [discoveryStep, hr] using h
    | listErr m => simpa [discoveryStep, hr] using h
    | ok arn shards =>
      simp only [discoveryStep, hr, if_neg, Bool.false_eq_true, if_false]
      constructor
      · rw [List.map_append]
        refine List.Nodup.append h.1 (discoverOnce_queued_nodup arn t shards st.known) ?_
        intro x hx hy
        rcases List.mem_map.mp hx with ⟨r, hr1, rfl⟩
        rcases List.mem_map.mp hy with ⟨r2, hr2, hid⟩
        have hin : r.shardId ∈ st.known := h.2 r hr1
        have hout : r2.shardId ∈ st.known → False :=
          fun hc => discoverOnce_queued_new arn t shards st.known r2 hr2 hc
        exact hout (hid ▸ hin)
      · intro r hmem
        rcases List.mem_append.mp hmem with hold | hnew
        · exact discoverOnce_known_sub arn t shards st.known (h.2 r hold)
        · exact discoverOnce_queued_sub arn t shards st.known r hnew

/-- Helper for C8: the invariant holds along any sequence of refresh
signals. -/
theorem discoveryRun_inv (t : String) :
    ∀ (inps : List DiscoverInput) (st : DiscoveryState),
      DiscInv st → DiscInv (discoveryRun t st inps) := by
  intro inps
  induction inps with
  | nil => intro st h; exact h
  | cons i rest ih =>
    intro st h
    exact ih (discoveryStep t st i) (discoveryStep_inv t st i h)

/-- C8: `allShards` only grows across a discovery pass; a pass enqueues a
reader request only for ids not already in the set; across a whole run every
id is enqueued (hence every reader started) at most once; and re-running a
pass over an unchanged listing enqueues zero new readers. -/
theorem shard_discovery_monotone_idempotent :
    (∀ (arn t : String) (known : List String) (ids : List Shard),
      known ⊆ (discoverOnce arn t known ids).1) ∧
    (∀ (arn t : String) (known : List String) (ids : List Shard)
        (r : GetIteratorRequest),
      r ∈ (discoverOnce arn t known ids).2 → r.shardId ∉ known) ∧
    (∀ (arn t : String) (known : List String) (ids : List Shard),
      discoverOnce arn t (discoverOnce arn t known ids).1 ids =
        ((discoverOnce arn t known ids).1, [])) ∧
    (∀ (t : String) (inps : List DiscoverInput),
      ((discoveryRun t DiscoveryState.init inps).queued.map
        (fun r => r.shardId)).Nodup) := by
  refine ⟨?_, ?_, ?_, ?_⟩
  · intro arn t known ids
    exact discoverOnce_known_sub arn t ids known
  · intro arn t known ids r h
    exact discoverOnce_queued_new arn t ids known r h
  · intro arn t known ids
    exact discoverOnce_all_known arn t ids (discoverOnce arn t known ids).1
      (fun sh hsh => discoverOnce_mem arn t ids known sh hsh)
  · intro t inps
    exact (discoveryRun_inv t inps DiscoveryState.init
      (by constructor <;> simp [DiscoveryState.init])).1

/-- Witness for C8: the one request enqueued by a pass that discovers shard
`s1` from an empty set names an id that was not previously known. -/
theorem shard_discovery_monotone_idempotent_witness :
    ({ streamArn := "arn", shardId := "s1", shardIteratorType := "LATEST" } :
        GetIteratorRequest).shardId ∉ ([] : List String) :=
  shard_discovery_monotone_idempotent.2.1 "arn" "LATEST" []
    [{ shardId := "s1", parentShardId := none }]
    { streamArn := "arn", shardId := "s1", shardIteratorType := "LATEST" }
    (by decide)

/-- C1 counterexample: after a stream-resolution error on the first refresh
signal, a second refresh signal over a listing with an unseen shard enqueues
nothing (the discovery goroutine executed `errCh <- err; return`), whereas
the same signal without the preceding error enqueues a reader request — so
"every subsequent refresh signal still triggers a discovery pass" fails at
this concrete input. -/
theorem discovery_error_cex :
    (discoveryRun "LATEST" DiscoveryState.init
        [DiscoverInput.resolveErr "resolve failed",
         DiscoverInput.ok "arn" [{ shardId := "s1", parentShardId := none }]]).queued
      = [] ∧
    (discoveryRun "LATEST" DiscoveryState.init
        [DiscoverInput.ok "arn" [{ shardId := "s1", parentShardId := none }]]).queued
      ≠ [] := by
  decide

/-- C1 (amended): an error from stream resolution or shard listing during a
refresh is published to the error channel and `known_shards` is not cleared
(known set, queue untouched), but the discovery goroutine returns: from then
on no refresh signal triggers a discovery pass (the state never changes
again). -/
theorem discovery_error_publishes_then_stops :
    (∀ (t : String) (st : DiscoveryState) (m : String),
      st.returned = false →
      discoveryStep t st (DiscoverInput.resolveErr m) =
        { st with errors := st.errors ++ [m], returned := true } ∧
      discoveryStep t st (DiscoverInput.listErr m) =
        { st with errors := st.errors ++ [m], returned := true }) ∧
    (∀ (t : String) (st : DiscoveryState) (inps : List DiscoverInput),
      st.returned = true → discoveryRun t st inps = st) := by
  constructor
  · intro t st m h
    constructor <;> simp [discoveryStep, h]
  · intro t st inps h
    induction inps with
    | nil => rfl
    | cons i rest ih => simpa [discoveryRun, discoveryStep, h] using ih

/-- Witness for C1 (amended): a concrete resolution error from the initial
state publishes the error, keeps the known set, and marks the goroutine
returned. -/
theorem discovery_error_publishes_then_stops_witness :
    discoveryStep "LATEST" DiscoveryState.init (DiscoverInput.resolveErr "e") =
      { DiscoveryState.init with errors := ["e"], returned := true } :=
  (discovery_error_publishes_then_stops.1 "LATEST" DiscoveryState.init "e"
    rfl).1

/-- C2: the function the validation worker goroutines execute
(`processValidationBatch`, modelled by its record loop `processBatchGo`)
writes the shared `Stats` fields directly — here one record at a found item
turns the all-zero stats into `validation_count = validation_success = 1` —
while the consumer's record handler never writes any validation counter, so
no verdict ever reaches `Stats` through the consumer and no channel or
atomic counter is involved: the counters are mutated from worker tasks,
contrary to the claim. -/
theorem worker_mutates_stats :
    (processBatchGo s3Cfg (fun _ => LookupOutcome.found)
        [{ partitionKeyValue := "p1", sortKeyValue := "" }] Stats.init 0).1 ≠
      Stats.init ∧
    (processBatchGo s3Cfg (fun _ => LookupOutcome.found)
        [{ partitionKeyValue := "p1", sortKeyValue := "" }] Stats.init 0).1 =
      { Stats.init with validationCount := 1, validationSuccess := 1 } ∧
    (∀ (cfg : VerifCfg) (st : ConsumerState) (rec : StreamRecord),
      (processRecord cfg st rec).stats.validationCount =
        st.stats.validationCount ∧
      (processRecord cfg st rec).stats.validationSuccess =
        st.stats.validationSuccess ∧
      (processRecord cfg st rec).stats.validationFailed =
        st.stats.validationFailed) := by
  refine ⟨by decide, by decide, ?_⟩
  intro cfg st rec
  by_cases h : rec.eventName = OperationType.remove
  · simp [processRecord, h]
  · simp [processRecord, h]

/-- Helper for C3: accounting effect of a worker's record loop on the shared
stats: `validation_count` grows by the batch length, the success/failure sum
grows by the batch length, and the consumer-owned counters are untouched. -/
theorem processBatchGo_stats (cfg : VerifCfg) (o : LookupOracle) :
    ∀ (rs : List ValidationRecord) (s : Stats) (k : Nat),
      (processBatchGo cfg o rs s k).1.validationCount =
        s.validationCount + rs.length ∧
      (processBatchGo cfg o rs s k).1.validationSuccess +
          (processBatchGo cfg o rs s k).1.validationFailed =
        s.validationSuccess + s.validationFailed + rs.length ∧
      (processBatchGo cfg o rs s k).1.totalCount = s.totalCount := by
  intro rs
  induction rs with
  | nil => intro s k; simp [processBatchGo]
  | cons r rest ih =>
    intro s k
    by_cases h : (validateOne cfg o r k).1 = true
    · have ht := ih
        { s with
          validationCount := s.validationCount + 1
          validationSuccess := s.validationSuccess + 1 }
        (validateOne cfg o r k).2.1
      simp only [processBatchGo, h, if_true, List.length_cons] at ht ⊢
      refine ⟨by rw [ht.1]; omega, by rw [ht.2.1]; omega, by rw [ht.2.2]⟩
    · simp only [Bool.not_eq_true] at h
      have ht := ih
        { s with
          validationCount := s.validationCount + 1
          validationFailed := s.validationFailed + 1 }
        (validateOne cfg o r k).2.1
      simp only [processBatchGo, h, Bool.false_eq_true, if_false,
        List.length_cons] at ht ⊢
      refine ⟨by rw [ht.1]; omega, by rw [ht.2.1]; omega, by rw [ht.2.2]⟩

/-- Helper for C3: removing the processed batch from the pending list
removes exactly its records from the outstanding count. -/
theorem sum_length_eraseIdx :
    ∀ (l : List (List ValidationRecord)) (i : Nat), i < l.length →
      ((l.eraseIdx i).map List.length).sum + (l.getD i []).length =
        (l.map List.length).sum := by
  intro l
  induction l with
  | nil => intro i h; cases h
  | cons a rest ih =>
    intro i h
    cases i with
    | zero => simp [List.eraseIdx, List.getD]; omega
    | succ n =>
      have := ih n (by simpa using h)
      simp only [List.eraseIdx, List.getD_cons_succ, List.map_cons,
        List.sum_cons] at this ⊢
      omega

/-- Helper for C3: the record branch of the consumer never writes a
validation counter, increments `total` by at most the buffer growth, and
grows the buffer by at most one entry per counted event. -/
theorem processRecord_effect (cfg : VerifCfg) (st : ConsumerState)
    (rec : StreamRecord) :
    (processRecord cfg st rec).stats.validationCount =
      st.stats.validationCount ∧
    (processRecord cfg st rec).stats.validationSuccess =
      st.stats.validationSuccess ∧
    (processRecord cfg st rec).stats.validationFailed =
      st.stats.validationFailed ∧
    (processRecord cfg st rec).validationBuffer.length +
        st.stats.totalCount ≤
      st.validationBuffer.length +
        (processRecord cfg st rec).stats.totalCount := by
  by_cases h : rec.eventName = OperationType.remove
  · simp [processRecord, h]
  · by_cases hb : (st.stats.totalCount + 1) % cfg.sampleRate = 0 ∧
      (extractKeys cfg.partitionKey cfg.sortKey rec.keys).1 ≠ ""
    · simp [processRecord, h, hb]
      omega
    · simp [processRecord, h, hb]

/-- Helper for C3: the quiescent-point accounting invariant of the pipeline:
verdicts partition the validated count, and every validated, buffered or
flushed-but-unprocessed record stems from a distinct counted event. -/
def SysInv (st : SysState) : Prop :=
  st.stats.validationSuccess + st.stats.validationFailed =
    st.stats.validationCount ∧
  st.stats.validationCount + st.validationBuffer.length +
      (st.pending.map List.length).sum ≤
    st.stats.totalCount

/-- Helper for C3: every atomic step of the pipeline preserves the
accounting invariant. -/
theorem sysStep_inv (cfg : VerifCfg) (o : LookupOracle) (s1 s2 : SysState)
    (h : SysStep cfg o s1 s2) (hi : SysInv s1) : SysInv s2 := by
  obtain ⟨h1, h2⟩ := hi
  cases h with
  | recv rec =>
    have he := processRecord_effect cfg
      { stats := s1.stats, validationBuffer := s1.validationBuffer } rec
    dsimp only at he
    refine ⟨?_, ?_⟩
    · simp only [sysRecv]
      rw [he.1, he.2.1, he.2.2.1]
      exact h1
    · have h3 := he.2.2.2
      simp only [sysRecv]
      rw [he.1]
      omega
  | flush =>
    by_cases hb : s1.validationBuffer = []
    · rw [show processValidationBuffer s1 = s1 from by
        simp [processValidationBuffer, hb]]
      exact ⟨h1, h2⟩
    · refine ⟨?_, ?_⟩
      · simpa [processValidationBuffer, hb] using h1
      · simp only [processValidationBuffer, hb, if_neg, List.map_append,
          List.sum_append, List.length_nil, List.map_cons, List.sum_cons,
          List.map_nil, List.sum_nil, if_false]
        omega
  | work i hlt =>
    have hbs := processBatchGo_stats cfg o (s1.pending.getD i [])
      s1.stats s1.lookups
    have hse := sum_length_eraseIdx s1.pending i hlt
    refine ⟨?_, ?_⟩
    · simp only [sysWork, processValidationBatch]
      rw [hbs.1, hbs.2.1]
      omega
    · simp only [sysWork, processValidationBatch]
      rw [hbs.1, hbs.2.2]
      omega

/-- C3: at every quiescent point of every run (the states between the atomic
steps of the pipeline, i.e. no batch mid-processing),
`validation_success + validation_failed = validation_count ≤ total`; and
processing one `ValidationRecord` adds exactly 1 to `validation_count` and
exactly 1 to exactly one of `validation_success` and `validation_failed`. -/
theorem validation_accounting_invariant :
    (∀ (cfg : VerifCfg) (o : LookupOracle) (st : SysState),
      SysReachable cfg o st →
      st.stats.validationSuccess + st.stats.validationFailed =
        st.stats.validationCount ∧
      st.stats.validationCount ≤ st.stats.totalCount) ∧
    (∀ (cfg : VerifCfg) (o : LookupOracle) (s : Stats) (k : Nat)
        (r : ValidationRecord),
      (processBatchGo cfg o [r] s k).1.validationCount =
        s.validationCount + 1 ∧
      (((processBatchGo cfg o [r] s k).1.validationSuccess =
            s.validationSuccess + 1 ∧
        (processBatchGo cfg o [r] s k).1.validationFailed =
          s.validationFailed) ∨
       ((processBatchGo cfg o [r] s k).1.validationSuccess =
            s.validationSuccess ∧
        (processBatchGo cfg o [r] s k).1.validationFailed =
          s.validationFailed + 1))) := by
  constructor
  · intro cfg o st h
    have hinv : SysInv st := by
      induction h with
      | refl => constructor <;> simp [SysState.init, Stats.init]
      | tail hsteps hstep ih => exact sysStep_inv cfg o _ _ hstep ih
    refine ⟨hinv.1, ?_⟩
    have := hinv.2
    omega
  · intro cfg o s k r
    by_cases h : (validateOne cfg o r k).1 = true
    · refine ⟨?_, Or.inl ⟨?_, ?_⟩⟩ <;> simp [processBatchGo, h]
    · simp only [Bool.not_eq_true] at h
      refine ⟨?_, Or.inr ⟨?_, ?_⟩⟩ <;>
        simp [processBatchGo, h]

/-- Witness for C3: a concrete three-step run — receive one sampled insert,
flush the buffer, have a worker validate the batch against a table where the
item exists — reaches a state where the invariant is applied. -/
theorem validation_accounting_invariant_witness :
    (sysWork s3Cfg (fun _ => LookupOutcome.found)
        (processValidationBuffer
          (sysRecv s3Cfg SysState.init (synthInsert 1))) 0).stats.validationSuccess +
      (sysWork s3Cfg (fun _ => LookupOutcome.found)
        (processValidationBuffer
          (sysRecv s3Cfg SysState.init (synthInsert 1))) 0).stats.validationFailed =
      (sysWork s3Cfg (fun _ => LookupOutcome.found)
        (processValidationBuffer
          (sysRecv s3Cfg SysState.init (synthInsert 1))) 0).stats.validationCount ∧
    (sysWork s3Cfg (fun _ => LookupOutcome.found)
        (processValidationBuffer
          (sysRecv s3Cfg SysState.init (synthInsert 1))) 0).stats.validationCount ≤
      (sysWork s3Cfg (fun _ => LookupOutcome.found)
        (processValidationBuffer
          (sysRecv s3Cfg SysState.init (synthInsert 1))) 0).stats.totalCount :=
  validation_accounting_invariant.1 s3Cfg (fun _ => LookupOutcome.found) _
    (Relation.ReflTransGen.tail
      (Relation.ReflTransGen.tail
        (Relation.ReflTransGen.tail Relation.ReflTransGen.refl
          (SysStep.recv SysState.init (synthInsert 1)))
        (SysStep.flush (sysRecv s3Cfg SysState.init (synthInsert 1))))
      (SysStep.work
        (processValidationBuffer (sysRecv s3Cfg SysState.init (synthInsert 1)))
        0 (by decide)))

end DMM
